import Mathlib

/-!
Verification development for the life-map timeline layout engine.

The TypeScript source is shallowly embedded here:
* JavaScript numbers are modelled as exact rationals (`ℚ`); the source
  performs only field arithmetic (add, sub, mul, div, floor, ceil, max, min),
  so every expression is rational-valued.  IEEE-754 rounding is abstracted.
* Calendar dates (ISO `YYYY-MM-DD` strings parsed with `new Date`) are
  modelled as year/month/day triples; a possibly-absent, possibly-unparsable
  date string field is modelled by `DateField` (absent/empty ↦ `absent`,
  present but unparsable ↦ `invalid`, parsable ↦ `valid`), so JavaScript
  truthiness tests on the string and `isNaN` tests on the parsed date are
  both representable.
* The ES `Map` objects keyed by item id are modelled as association lists
  where the *last* binding for a key wins (`Map.set` overwrites).
* `Array.prototype.sort` with a total-preorder comparator is stable
  (ES2019), hence modelled by `List.insertionSort` with the corresponding
  `≤`-relation.
-/

namespace LifeMapApp

/-- Item / category color (source `TimelineItemColor`). -/
inductive TLColor
| blue
| red
deriving DecidableEq, Repr

/-- Category section tag (source: the `section` field, `'top' | 'bottom'`). -/
inductive CatSection
| top
| bottom
deriving DecidableEq, Repr

/-- Temporal input mode of an item (source `input_mode?: 'age' | 'date'`). -/
inductive InputMode
| age
| date
deriving DecidableEq, Repr

/-- View mode of the timeline (source `viewMode: 'all' | 'past' | 'future'`). -/
inductive ViewMode
| all
| past
| future
deriving DecidableEq, Repr

/-- A parsed calendar date, as the source reads it back through
`getFullYear`/`getMonth`/`getDate`.  Only differences of the fields are ever
used, so the 0-based/1-based month convention is irrelevant. -/
structure SimpleDate where
  year : ℤ
  month : ℤ
  day : ℤ
deriving DecidableEq, Repr

/-- A date-valued string field of the source data model.
`absent` = `undefined` or `''` (falsy in JS), `invalid` = non-empty but
unparsable (`isNaN(new Date(s).getTime())`), `valid d` = parses to `d`. -/
inductive DateField
| absent
| invalid
| valid (d : SimpleDate)
deriving DecidableEq, Repr

/-- JavaScript truthiness of the underlying string. -/
def DateField.truthy : DateField → Bool
| .absent => false
| _ => true

/-- The parsed date, `none` when absent or unparsable (`isNaN` check). -/
def DateField.parseD : DateField → Option SimpleDate
| .valid d => some d
| _ => none

/-- Source `Category` (src/types, part_003).  The source field `section` is a
Lean keyword and is rendered `sec` here. -/
structure Category where
  id : ℕ
  name : String
  label : String
  sec : CatSection
  display_order : ℕ
  color : TLColor
deriving DecidableEq, Repr

/-- Source `TimelineItem` (src/types, part_003).  Optional numeric fields are
`Option ℚ`; the optional `use_max_age` boolean collapses to `Bool` since the
source only ever tests its truthiness. -/
structure TimelineItem where
  id : ℕ
  category_id : ℕ
  category : Option Category := none
  title : String
  start_age : Option ℚ := none
  end_age : Option ℚ := none
  use_max_age : Bool := false
  input_mode : Option InputMode := none
  start_date : DateField := .absent
  end_date : DateField := .absent
  color : TLColor
deriving DecidableEq, Repr

/-- Output of the Age/Date Normalizer (source interface `DerivedAges`). -/
structure DerivedAges where
  start_age : ℚ
  end_age : Option ℚ
deriving DecidableEq, Repr

/-- Core of source `calculateAgeAtDate` (ageCalculator.ts, lines 96-104) on
two successfully parsed dates: whole-year difference, decremented when the
birthday has not yet been reached in the event year. -/
def ageAtDateCore (eventDate dateOfBirth : SimpleDate) : ℤ :=
  let age := eventDate.year - dateOfBirth.year
  let monthDiff := eventDate.month - dateOfBirth.month
  if monthDiff < 0 ∨ (monthDiff = 0 ∧ eventDate.day < dateOfBirth.day) then age - 1 else age

/-- Source `calculateAgeAtDate` (ageCalculator.ts): `null` when either input
is missing/unparsable (the falsy guard and the `isNaN` guard both map to
`parseD = none`), otherwise the whole-year age. -/
def calculateAgeAtDate (eventDate dateOfBirth : DateField) : Option ℤ :=
  match eventDate.parseD, dateOfBirth.parseD with
  | some e, some b => some (ageAtDateCore e b)
  | _, _ => none

/-- Core of source `calculateMonthsDiff` (ageCalculator.ts, lines 141-152):
year-month difference adjusted down by one when the day-of-month has not been
reached. -/
def monthsDiffCore (startDate endDate : SimpleDate) : ℤ :=
  let totalMonths := (endDate.year - startDate.year) * 12 + (endDate.month - startDate.month)
  if endDate.day - startDate.day < 0 then totalMonths - 1 else totalMonths

/-- Source `calculateMonthsDiff` (ageCalculator.ts): `null` on missing or
unparsable input, otherwise the whole-month span. -/
def calculateMonthsDiff (startDate endDate : DateField) : Option ℤ :=
  match startDate.parseD, endDate.parseD with
  | some s, some e => some (monthsDiffCore s e)
  | _, _ => none

/-- Source `deriveItemAges` (part_000, lines 1394-1430): the Age/Date
Normalizer.  Date mode (tag `'date'` and truthy `start_date`) derives ages
from dates with the whole-month span thresholds; otherwise stored ages are
used directly, with `use_max_age` forcing `end_age = ageRange`. -/
def deriveItemAges (item : TimelineItem) (dateOfBirth : DateField) (ageRange : ℚ) :
    DerivedAges :=
  if item.input_mode = some InputMode.date ∧ item.start_date.truthy = true then
    -- Date mode - calculate ages from dates
    let startAge : ℚ :=
      match calculateAgeAtDate item.start_date dateOfBirth with
      | some a => (a : ℚ)
      | none => 0
    if item.use_max_age then
      ⟨startAge, some ageRange⟩
    else if item.end_date.truthy = false then
      -- No end date - milestone
      ⟨startAge, none⟩
    else
      match calculateMonthsDiff item.start_date item.end_date with
      | none => ⟨startAge, none⟩
      | some months =>
        if months < 3 then
          -- Less than 3 months - treat as milestone
          ⟨startAge, none⟩
        else if months ≤ 12 then
          -- 3-12 months - treat as 1 year
          ⟨startAge, some (startAge + 1)⟩
        else
          -- More than 12 months - calculate actual end age
          ⟨startAge, some (match calculateAgeAtDate item.end_date dateOfBirth with
                           | some a => (a : ℚ)
                           | none => startAge + 1)⟩
  else
    -- Age mode - use stored ages directly
    ⟨item.start_age.getD 0, if item.use_max_age then some ageRange else item.end_age⟩

/-- C2 (date, 2 months apart, milestone): start 2010-06-15, end 2010-08-15. -/
def itemC2a : TimelineItem :=
  { id := 1, category_id := 1, title := "a", color := .blue,
    input_mode := some .date,
    start_date := .valid ⟨2010, 6, 15⟩, end_date := .valid ⟨2010, 8, 15⟩ }

/-- C2 (date, exactly 3 months apart): start 2010-06-15, end 2010-09-15. -/
def itemC2b : TimelineItem :=
  { id := 2, category_id := 1, title := "b", color := .blue,
    input_mode := some .date,
    start_date := .valid ⟨2010, 6, 15⟩, end_date := .valid ⟨2010, 9, 15⟩ }

/-- C2 (date, exactly 12 months apart): start 2010-06-15, end 2011-06-15. -/
def itemC2c : TimelineItem :=
  { id := 3, category_id := 1, title := "c", color := .blue,
    input_mode := some .date,
    start_date := .valid ⟨2010, 6, 15⟩, end_date := .valid ⟨2011, 6, 15⟩ }

/-- C2 (date, 13 months apart): start 2010-06-15, end 2011-07-15. -/
def itemC2d : TimelineItem :=
  { id := 4, category_id := 1, title := "d", color := .blue,
    input_mode := some .date,
    start_date := .valid ⟨2010, 6, 15⟩, end_date := .valid ⟨2011, 7, 15⟩ }

/-- C2: for a date-mode item with parsable start and end dates, a parsable
date of birth, and `use_max_age` unset, the normalizer applies the
whole-month span thresholds: span < 3 months ⟹ milestone, 3–12 months
inclusive ⟹ `end_age = start_age + 1`, span > 12 months ⟹ `end_age` is the
age at the end date computed from the date of birth. -/
theorem deriveItemAges_month_thresholds (item : TimelineItem) (sd ed bd : SimpleDate)
    (ageRange : ℚ)
    (hmode : item.input_mode = some InputMode.date)
    (hsd : item.start_date = .valid sd)
    (hed : item.end_date = .valid ed)
    (hmax : item.use_max_age = false) :
    deriveItemAges item (.valid bd) ageRange =
      if monthsDiffCore sd ed < 3 then
        ⟨(ageAtDateCore sd bd : ℚ), none⟩
      else if monthsDiffCore sd ed ≤ 12 then
        ⟨(ageAtDateCore sd bd : ℚ), some ((ageAtDateCore sd bd : ℚ) + 1)⟩
      else
        ⟨(ageAtDateCore sd bd : ℚ), some ((ageAtDateCore ed bd : ℚ))⟩ := by
  simp only [deriveItemAges, hmode, hsd, hed, hmax, DateField.truthy, DateField.parseD,
    calculateAgeAtDate, calculateMonthsDiff, Bool.false_eq_true, if_false]
  simp

/-- Witness for C2, exercising all four spans named by the claim with
DOB 2000-01-01: 2 months ⟹ milestone at age 10, 3 months ⟹ ages 10–11,
12 months ⟹ ages 10–11, 13 months ⟹ ages 10–11 with 11 the true age at the
end date. -/
theorem deriveItemAges_month_thresholds_witness :
    deriveItemAges itemC2a (.valid ⟨2000, 1, 1⟩) 80 = ⟨10, none⟩ ∧
    deriveItemAges itemC2b (.valid ⟨2000, 1, 1⟩) 80 = ⟨10, some 11⟩ ∧
    deriveItemAges itemC2c (.valid ⟨2000, 1, 1⟩) 80 = ⟨10, some 11⟩ ∧
    deriveItemAges itemC2d (.valid ⟨2000, 1, 1⟩) 80 = ⟨10, some 11⟩ := by
  refine ⟨?_, ?_, ?_, ?_⟩
  · have h := deriveItemAges_month_thresholds itemC2a ⟨2010, 6, 15⟩ ⟨2010, 8, 15⟩
      ⟨2000, 1, 1⟩ 80 rfl rfl rfl rfl
    rw [h]
    norm_num [monthsDiffCore, ageAtDateCore]
  · have h := deriveItemAges_month_thresholds itemC2b ⟨2010, 6, 15⟩ ⟨2010, 9, 15⟩
      ⟨2000, 1, 1⟩ 80 rfl rfl rfl rfl
    rw [h]
    norm_num [monthsDiffCore, ageAtDateCore]
  · have h := deriveItemAges_month_thresholds itemC2c ⟨2010, 6, 15⟩ ⟨2011, 6, 15⟩
      ⟨2000, 1, 1⟩ 80 rfl rfl rfl rfl
    rw [h]
    norm_num [monthsDiffCore, ageAtDateCore]
  · have h := deriveItemAges_month_thresholds itemC2d ⟨2010, 6, 15⟩ ⟨2011, 7, 15⟩
      ⟨2000, 1, 1⟩ 80 rfl rfl rfl rfl
    rw [h]
    norm_num [monthsDiffCore, ageAtDateCore]

/-- C3: for any item with `use_max_age = true`, in either input mode and for
any date of birth, the normalized `end_age` equals the `ageRange` argument —
stored `end_age`/`end_date` are ignored, so re-running after `age_range`
changes yields the new value. -/
theorem deriveItemAges_use_max_age (item : TimelineItem) (dateOfBirth : DateField)
    (ageRange : ℚ) (hmax : item.use_max_age = true) :
    (deriveItemAges item dateOfBirth ageRange).end_age = some ageRange := by
  unfold deriveItemAges
  split
  · simp [hmax]
  · simp [hmax]

/-- Witness for C3: an age-mode item with a stale stored `end_age = 80` and
`use_max_age` set normalizes to `end_age = 60` once `age_range` is 60. -/
theorem deriveItemAges_use_max_age_witness :
    (deriveItemAges
      { id := 1, category_id := 1, title := "w", color := .blue,
        start_age := some 5, end_age := some 80, use_max_age := true }
      .absent 60).end_age = some 60 :=
  deriveItemAges_use_max_age _ _ _ rfl

/-- C9: a date-tagged item whose `start_date` is absent (or the empty string)
falls through to the age-variant branch: `start_age` is the stored
`start_age` (default 0) and `end_age` is `ageRange` if `use_max_age` else the
stored `end_age` — no unknown-sentinel milestone at age 0 is produced. -/
theorem deriveItemAges_date_without_start (item : TimelineItem) (dateOfBirth : DateField)
    (ageRange : ℚ)
    (_hmode : item.input_mode = some InputMode.date)
    (hsd : item.start_date = .absent) :
    deriveItemAges item dateOfBirth ageRange =
      ⟨item.start_age.getD 0, if item.use_max_age then some ageRange else item.end_age⟩ := by
  unfold deriveItemAges
  rw [hsd]
  simp [DateField.truthy]

/-- Witness for C9: a date-tagged item with no `start_date` but residual
age-variant fields `start_age = 7`, `end_age = 9` normalizes to that stored
age pair. -/
theorem deriveItemAges_date_without_start_witness :
    deriveItemAges
      { id := 1, category_id := 1, title := "w", color := .blue,
        start_age := some 7, end_age := some 9,
        input_mode := some .date, start_date := .absent }
      .absent 80 = ⟨7, some 9⟩ := by
  have h := deriveItemAges_date_without_start
    { id := 1, category_id := 1, title := "w", color := .blue,
      start_age := some 7, end_age := some 9,
      input_mode := some .date, start_date := .absent }
    .absent 80 rfl rfl
  rw [h]
  simp

/-- The inputs of the `Timeline` component (source `TimelineProps` plus the
component's defaulted parameters, part_000 lines 1376-1386 and 1506). -/
structure TimelineProps where
  items : List TimelineItem
  categories : List Category
  currentAge : ℚ := 0
  ageRange : ℚ := 80
  dateOfBirth : DateField := .absent
  autoScale : Bool := false
  viewMode : ViewMode := .all
  width : ℚ := 1200
  zoom : ℚ := 1
deriving DecidableEq

/-- Result of the Display-Range Selector. -/
structure DisplayRange where
  startAge : ℚ
  displayRange : ℚ
deriving DecidableEq, Repr

/-- The final "ensure we don't exceed the configured age range" stage of
source `calculateDisplayRange` (part_000 lines 1609-1629), on the
`finalStart`/`finalRange` values reached there. -/
def capToAgeRange (viewMode : ViewMode) (currentAge ageRange finalStart finalRange : ℚ) :
    DisplayRange :=
  let maxEndAge := finalStart + finalRange
  if maxEndAge > ageRange then
    -- Cap the range to not exceed ageRange
    let maxAllowedRange := ageRange - finalStart
    let cappedRange := min finalRange maxAllowedRange
    if viewMode = ViewMode.future then
      ⟨max currentAge (ageRange - cappedRange), cappedRange⟩
    else if viewMode = ViewMode.past then
      ⟨max 0 (currentAge - cappedRange), cappedRange⟩
    else
      ⟨max 0 (ageRange - cappedRange), cappedRange⟩
  else
    ⟨finalStart, finalRange⟩

/-- The items-present arm of source `calculateDisplayRange` (part_000 lines
1568-1629), factored out with the item scan's `minAge`/`maxAge` as
parameters.  Mutated locals of the source are written in SSA style
(`calculatedStart0/1/2`, `finalRange0/1`, `finalStart0/1`). -/
def autoRangeFromItems (viewMode : ViewMode) (currentAge ageRange minAge maxAge : ℚ) :
    DisplayRange :=
  -- Add padding (10% on each side, minimum 5 years)
  let itemSpan := maxAge - minAge
  let padding := if itemSpan > 0 then max (itemSpan * (1/10)) 5 else 5
  let calculatedStart0 : ℚ := max 0 ((⌊minAge - padding⌋ : ℤ) : ℚ)
  let calculatedEnd : ℚ := ((⌈maxAge + padding⌉ : ℤ) : ℚ)
  -- For future view, don't allow start to go below current age
  let calculatedStart1 :=
    if viewMode = ViewMode.future ∧ calculatedStart0 < currentAge then currentAge
    else calculatedStart0
  -- For past view, don't allow end to go above current age (ensure min range)
  let calculatedStart2 :=
    if viewMode = ViewMode.past ∧ calculatedEnd > currentAge ∧
        currentAge - calculatedStart1 < 20 then
      max 0 (currentAge - 20)
    else calculatedStart1
  let calculatedRange := calculatedEnd - calculatedStart2
  -- Don't zoom in too much - keep minimum range of 20 years
  let finalRange0 := max calculatedRange 20
  let finalStart0 := max 0 calculatedStart2
  -- For future view, ensure start is at least current age
  let finalStart1 := if viewMode = ViewMode.future then max finalStart0 currentAge else finalStart0
  let finalEnd1 := finalStart1 + finalRange0
  -- For past view, ensure end is at most current age
  let finalRange1 :=
    if viewMode = ViewMode.past ∧ finalEnd1 > currentAge then currentAge - finalStart1
    else finalRange0
  capToAgeRange viewMode currentAge ageRange finalStart1 finalRange1

/-- Source `calculateDisplayRange` (part_000 lines 1531-1630).  The source
initializes `minAge`/`maxAge` at `±Infinity` and scans every item; with a
nonempty list the scan equals the fold below seeded by the first item, and
the source's `minAge === Infinity` recheck (lines 1560-1566) is unreachable. -/
def calculateDisplayRange (c : TimelineProps) : DisplayRange :=
  if c.autoScale = false then
    ⟨0, c.ageRange⟩
  else
    match c.items with
    | [] =>
      -- If no items but auto-scaling is enabled, show range based on view mode
      if c.viewMode = ViewMode.future then
        let futureRange := min (c.ageRange - c.currentAge) 40
        ⟨c.currentAge, max futureRange 20⟩
      else if c.viewMode = ViewMode.past then
        ⟨0, max c.currentAge 20⟩
      else
        ⟨0, min c.ageRange 40⟩
    | i0 :: rest =>
      let ages0 := deriveItemAges i0 c.dateOfBirth c.ageRange
      let minAge := rest.foldl
        (fun m it => min m (deriveItemAges it c.dateOfBirth c.ageRange).start_age)
        ages0.start_age
      let maxAge := rest.foldl
        (fun m it =>
          let a := deriveItemAges it c.dateOfBirth c.ageRange
          max m (a.end_age.getD a.start_age))
        (ages0.end_age.getD ages0.start_age)
      autoRangeFromItems c.viewMode c.currentAge c.ageRange minAge maxAge

/-- C4 counterexample input: auto-scale, `all` view, `age_range = 30` (within
the configured validity band 10-200), one age-mode milestone at age 28. -/
def propsC4 : TimelineProps :=
  { items := [{ id := 1, category_id := 1, title := "x", color := .blue,
                start_age := some 28 }],
    categories := [], currentAge := 10, ageRange := 30, autoScale := true,
    viewMode := .all }

/-- C4 counterexample: on `propsC4` the selector returns
`startAge = 23, displayRange = 7`, so `displayRange ≥ 20` fails (the
end-of-range cap shrinks the window below the 20-year floor). -/
theorem calculateDisplayRange_claim_false :
    ¬ (20 ≤ (calculateDisplayRange propsC4).displayRange ∧
        (calculateDisplayRange propsC4).startAge +
          (calculateDisplayRange propsC4).displayRange ≤ propsC4.ageRange) := by
  have hi : deriveItemAges
      { id := 1, category_id := 1, title := "x", color := .blue, start_age := some 28 }
      .absent 30 = ⟨28, none⟩ := by
    simp [deriveItemAges]
  have hrange : autoRangeFromItems .all 10 30 28 28 = ⟨23, 7⟩ := by
    norm_num +decide [autoRangeFromItems, capToAgeRange, max_def, min_def]
  have h : calculateDisplayRange propsC4 = ⟨23, 7⟩ := by
    rw [calculateDisplayRange]
    simp only [propsC4, hi, List.foldl_nil, Bool.true_eq_false, if_false]
    exact hrange
  rw [h]
  norm_num [propsC4]

/-- Arithmetic core for C4's amended claim: whatever `finalStart`/`finalRange`
reach the capping stage, (a) in `all` view the returned window never extends
past `ageRange`, (b) the 20-year floor can fail only when the window end was
clamped exactly to `ageRange` or to `currentAge`. -/
theorem capToAgeRange_amended (vm : ViewMode) (cur ar fs r : ℚ)
    (hfs : 0 ≤ fs)
    (hfut : vm = ViewMode.future → cur ≤ fs)
    (hpast : vm = ViewMode.past → fs + r ≤ cur)
    (hr : 20 ≤ r ∨ (vm = ViewMode.past ∧ fs + r = cur)) :
    (vm = ViewMode.all →
      (capToAgeRange vm cur ar fs r).startAge +
        (capToAgeRange vm cur ar fs r).displayRange ≤ ar) ∧
    (20 ≤ (capToAgeRange vm cur ar fs r).displayRange ∨
      (capToAgeRange vm cur ar fs r).startAge +
        (capToAgeRange vm cur ar fs r).displayRange = ar ∨
      (capToAgeRange vm cur ar fs r).startAge +
        (capToAgeRange vm cur ar fs r).displayRange = cur) := by
  cases vm with
  | all =>
    simp only [capToAgeRange]
    rw [if_neg (show ¬(ViewMode.all = ViewMode.future) by decide),
      if_neg (show ¬(ViewMode.all = ViewMode.past) by decide)]
    split_ifs with hcap
    · -- capped, all view: the window ends exactly at ar
      dsimp only
      have hmin : min r (ar - fs) ≤ ar - fs := min_le_right _ _
      have hmax : max 0 (ar - min r (ar - fs)) = ar - min r (ar - fs) :=
        max_eq_right (by linarith)
      refine ⟨fun _ => ?_, Or.inr (Or.inl ?_)⟩
      · rw [hmax]
        linarith
      · rw [hmax]
        ring
    · -- not capped: the window already fits
      dsimp only
      refine ⟨fun _ => not_lt.mp hcap, ?_⟩
      rcases hr with h20 | ⟨hvm, _⟩
      · exact Or.inl h20
      · exact absurd hvm (by decide)
  | past =>
    simp only [capToAgeRange]
    rw [if_neg (show ¬(ViewMode.past = ViewMode.future) by decide)]
    simp only [ite_true]
    split_ifs with hcap
    · -- capped, past view: the window ends exactly at cur
      dsimp only
      have hsum : fs + r ≤ cur := hpast rfl
      have hmin : min r (ar - fs) ≤ r := min_le_left _ _
      have hmax : max 0 (cur - min r (ar - fs)) = cur - min r (ar - fs) :=
        max_eq_right (by linarith)
      refine ⟨fun hall => absurd hall (by decide), Or.inr (Or.inr ?_)⟩
      rw [hmax]
      ring
    · dsimp only
      refine ⟨fun hall => absurd hall (by decide), ?_⟩
      rcases hr with h20 | ⟨_, hsum⟩
      · exact Or.inl h20
      · exact Or.inr (Or.inr hsum)
  | future =>
    simp only [capToAgeRange]
    simp only [ite_true]
    split_ifs with hcap
    · -- capped, future view: the window ends exactly at ar
      dsimp only
      have hcur : cur ≤ fs := hfut rfl
      have hmin : min r (ar - fs) ≤ ar - fs := min_le_right _ _
      have hmax : max cur (ar - min r (ar - fs)) = ar - min r (ar - fs) :=
        max_eq_right (by linarith)
      refine ⟨fun hall => absurd hall (by decide), Or.inr (Or.inl ?_)⟩
      rw [hmax]
      ring
    · dsimp only
      refine ⟨fun hall => absurd hall (by decide), ?_⟩
      rcases hr with h20 | ⟨hvm, _⟩
      · exact Or.inl h20
      · exact absurd hvm (by decide)

/-- `capToAgeRange_amended` specialized to `all` view. -/
theorem capAmended_all (cur ar fs r : ℚ) (hfs : 0 ≤ fs) (hr : 20 ≤ r) :
    ((capToAgeRange ViewMode.all cur ar fs r).startAge +
        (capToAgeRange ViewMode.all cur ar fs r).displayRange ≤ ar) ∧
    (20 ≤ (capToAgeRange ViewMode.all cur ar fs r).displayRange ∨
      (capToAgeRange ViewMode.all cur ar fs r).startAge +
        (capToAgeRange ViewMode.all cur ar fs r).displayRange = ar ∨
      (capToAgeRange ViewMode.all cur ar fs r).startAge +
        (capToAgeRange ViewMode.all cur ar fs r).displayRange = cur) := by
  have H := capToAgeRange_amended ViewMode.all cur ar fs r hfs
    (fun h => absurd h (by decide)) (fun h => absurd h (by decide)) (Or.inl hr)
  exact ⟨H.1 rfl, H.2⟩

/-- `capToAgeRange_amended` specialized to `past` view. -/
theorem capAmended_past (cur ar fs r : ℚ) (hfs : 0 ≤ fs) (hpast : fs + r ≤ cur)
    (hr : 20 ≤ r ∨ fs + r = cur) :
    20 ≤ (capToAgeRange ViewMode.past cur ar fs r).displayRange ∨
      (capToAgeRange ViewMode.past cur ar fs r).startAge +
        (capToAgeRange ViewMode.past cur ar fs r).displayRange = ar ∨
      (capToAgeRange ViewMode.past cur ar fs r).startAge +
        (capToAgeRange ViewMode.past cur ar fs r).displayRange = cur :=
  (capToAgeRange_amended ViewMode.past cur ar fs r hfs
    (fun h => absurd h (by decide)) (fun _ => hpast)
    (hr.imp_right (fun h => ⟨rfl, h⟩))).2

/-- `capToAgeRange_amended` specialized to `future` view. -/
theorem capAmended_future (cur ar fs r : ℚ) (hfs : 0 ≤ fs) (hfut : cur ≤ fs)
    (hr : 20 ≤ r) :
    20 ≤ (capToAgeRange ViewMode.future cur ar fs r).displayRange ∨
      (capToAgeRange ViewMode.future cur ar fs r).startAge +
        (capToAgeRange ViewMode.future cur ar fs r).displayRange = ar ∨
      (capToAgeRange ViewMode.future cur ar fs r).startAge +
        (capToAgeRange ViewMode.future cur ar fs r).displayRange = cur :=
  (capToAgeRange_amended ViewMode.future cur ar fs r hfs
    (fun _ => hfut) (fun h => absurd h (by decide)) (Or.inl hr)).2

/-- C4 amended, items-present arm: the capping-stage facts hold for the
`finalStart1`/`finalRange1` the earlier stages produce, in every view mode. -/
theorem autoRangeFromItems_amended (vm : ViewMode) (cur ar minA maxA : ℚ) :
    (vm = ViewMode.all →
      (autoRangeFromItems vm cur ar minA maxA).startAge +
        (autoRangeFromItems vm cur ar minA maxA).displayRange ≤ ar) ∧
    (20 ≤ (autoRangeFromItems vm cur ar minA maxA).displayRange ∨
      (autoRangeFromItems vm cur ar minA maxA).startAge +
        (autoRangeFromItems vm cur ar minA maxA).displayRange = ar ∨
      (autoRangeFromItems vm cur ar minA maxA).startAge +
        (autoRangeFromItems vm cur ar minA maxA).displayRange = cur) := by
  cases vm with
  | all =>
    unfold autoRangeFromItems
    simp only [eq_false (show ¬(ViewMode.all = ViewMode.future) by decide),
      eq_false (show ¬(ViewMode.all = ViewMode.past) by decide),
      false_and, if_false, ite_false]
    refine ⟨fun _ => (capAmended_all cur ar _ _ ?_ ?_).1, (capAmended_all cur ar _ _ ?_ ?_).2⟩
    · exact le_max_left _ _
    · exact le_max_right _ _
    · exact le_max_left _ _
    · exact le_max_right _ _
  | past =>
    unfold autoRangeFromItems
    simp only [eq_false (show ¬(ViewMode.past = ViewMode.future) by decide),
      eq_true (show ViewMode.past = ViewMode.past from rfl),
      false_and, true_and, if_false, ite_false, if_true, ite_true]
    refine ⟨fun h => absurd h (by decide), capAmended_past cur ar _ _ ?_ ?_ ?_⟩
    · exact le_max_left _ _
    · split_ifs <;> linarith
    · split_ifs <;>
        first
        | (refine Or.inr ?_; ring1)
        | exact Or.inl (le_max_right _ _)
  | future =>
    unfold autoRangeFromItems
    simp only [eq_true (show ViewMode.future = ViewMode.future from rfl),
      eq_false (show ¬(ViewMode.future = ViewMode.past) by decide),
      false_and, true_and, if_false, ite_false, if_true, ite_true]
    refine ⟨fun h => absurd h (by decide), capAmended_future cur ar _ _ ?_ ?_ ?_⟩
    · exact le_trans (le_max_left _ _) (le_max_left _ _)
    · exact le_max_right _ _
    · exact le_max_right _ _

/-- C4 corrected: with auto-scale on, the display-range selector guarantees,
for every input: in `all` view `startAge + displayRange ≤ age_range`; and in
every view `displayRange ≥ 20` unless the window end was clamped exactly to
`age_range` (end-of-range cap) or `currentAge` (past-view clamp), in which
case `startAge + displayRange` equals that clamp value. -/
theorem calculateDisplayRange_amended (c : TimelineProps) (h : c.autoScale = true) :
    (c.viewMode = ViewMode.all →
      (calculateDisplayRange c).startAge + (calculateDisplayRange c).displayRange ≤
        c.ageRange) ∧
    (20 ≤ (calculateDisplayRange c).displayRange ∨
      (calculateDisplayRange c).startAge + (calculateDisplayRange c).displayRange =
        c.ageRange ∨
      (calculateDisplayRange c).startAge + (calculateDisplayRange c).displayRange =
        c.currentAge) := by
  unfold calculateDisplayRange
  rw [h]
  simp only [Bool.true_eq_false, if_false]
  cases hitems : c.items with
  | nil =>
    split_ifs with hf hp
    · -- empty, future view
      constructor
      · intro hall
        rw [hall] at hf
        exact absurd hf (by simp)
      · exact Or.inl (by simp)
    · -- empty, past view
      constructor
      · intro hall
        rw [hall] at hp
        exact absurd hp (by simp)
      · exact Or.inl (by simp)
    · -- empty, all view
      constructor
      · intro _
        simp
      · rcases le_total 20 (min c.ageRange 40) with h20 | h20
        · exact Or.inl (by simpa using h20)
        · rcases le_total c.ageRange 40 with h40 | h40
          · right; left
            simp [min_eq_left h40]
          · refine Or.inl ?_
            simp only [min_eq_right h40]
            norm_num
  | cons i0 rest =>
    exact autoRangeFromItems_amended c.viewMode c.currentAge c.ageRange _ _

/-- Witness for the C4 amended theorem at a concrete auto-scaled input
(`propsC4`, `all` view): the returned window `[23, 30]` ends exactly at
`age_range = 30`. -/
theorem calculateDisplayRange_amended_witness :
    (propsC4.viewMode = ViewMode.all →
      (calculateDisplayRange propsC4).startAge +
        (calculateDisplayRange propsC4).displayRange ≤ propsC4.ageRange) ∧
    (20 ≤ (calculateDisplayRange propsC4).displayRange ∨
      (calculateDisplayRange propsC4).startAge +
        (calculateDisplayRange propsC4).displayRange = propsC4.ageRange ∨
      (calculateDisplayRange propsC4).startAge +
        (calculateDisplayRange propsC4).displayRange = propsC4.currentAge) :=
  calculateDisplayRange_amended propsC4 rfl

/-- Source `START_AGE` (part_000 line 1634): the selected window start. -/
def START_AGE (c : TimelineProps) : ℚ := (calculateDisplayRange c).startAge

/-- Source `AGE_RANGE` (part_000 line 1633): the selected window span. -/
def AGE_RANGE (c : TimelineProps) : ℚ := (calculateDisplayRange c).displayRange

/-- Source `ageToX` (part_000 lines 1636-1640): linear age-to-pixel mapping
with an explicit guard returning 0 when the displayed span is 0. -/
def ageToX (c : TimelineProps) (age : ℚ) : ℚ :=
  if AGE_RANGE c = 0 then 0
  else ((age - START_AGE c) / AGE_RANGE c) * c.width

/-- Source `getItemAges` (part_000 lines 1511-1519): lookup in the `itemAges`
map, which is populated by one `Map.set` per item of `c.items` in order (so
the last item with a given id wins), with the stored-ages fallback when the
id is unbound. -/
def getItemAges (c : TimelineProps) (item : TimelineItem) : DerivedAges :=
  match (c.items.filter (fun it => it.id == item.id)).getLast? with
  | some it => deriveItemAges it c.dateOfBirth c.ageRange
  | none => ⟨item.start_age.getD 0, item.end_age⟩

/-- Source `calculatePointItemWidth` (part_000 lines 1786-1796): rendered
width of a milestone from its title length and zoom.  The source's decimal
literal `0.6` is the exact rational 6/10 here. -/
def calculatePointItemWidth (c : TimelineProps) (text : String) : ℚ :=
  let zoomLevel := c.zoom
  let baseSize := 11 * zoomLevel
  let padding := 4 * zoomLevel
  let charWidth := baseSize * (6 / 10)
  let widthAtBase := (text.length : ℚ) * charWidth + padding
  max (50 * zoomLevel) widthAtBase

/-- The per-item width computed by the `itemWidths` loop (part_000 lines
1801-1819).  The source's double test (`!isPointItem && e !== null && e !==
undefined`) is exactly `end_age = some e`. -/
def itemWidth (c : TimelineProps) (item : TimelineItem) : ℚ :=
  let ages := getItemAges c item
  match ages.end_age with
  | some effectiveEndAge =>
    -- Bar item - width based on age range; minimum width is 1 year
    let oneYearWidth := c.width / AGE_RANGE c
    let startX := ageToX c ages.start_age
    let endX := ageToX c effectiveEndAge
    max (endX - startX) oneYearWidth
  | none =>
    -- Point item - width based on text content
    calculatePointItemWidth c item.title

/-- Source `itemWidths.get(id) || 60` (part_000 lines 1657-1658): the map
holds one binding per item id of `c.items` (last write wins); a missing
binding (`undefined`) and a stored falsy width (0) both fall back to 60. -/
def widthOf (c : TimelineProps) (id : ℕ) : ℚ :=
  match (c.items.filter (fun it => it.id == id)).getLast? with
  | some it =>
    let w := itemWidth c it
    if w = 0 then 60 else w
  | none => 60

/-- Source `itemsOverlap` (part_000 lines 1645-1676): two milestones compare
rendered horizontal extents; otherwise effective time extents with strict
inequalities. -/
def itemsOverlap (c : TimelineProps) (item1 item2 : TimelineItem) : Bool :=
  let ages1 := getItemAges c item1
  let ages2 := getItemAges c item2
  match ages1.end_age, ages2.end_age with
  | none, none =>
    -- If both are point items, check visual overlap based on rendered width
    let item1X := ageToX c ages1.start_age
    let item2X := ageToX c ages2.start_age
    let item1Width := widthOf c item1.id
    let item2Width := widthOf c item2.id
    let item1Left := item1X - item1Width / 2
    let item1Right := item1X + item1Width / 2
    let item2Left := item2X - item2Width / 2
    let item2Right := item2X + item2Width / 2
    decide (item1Right > item2Left) && decide (item2Right > item1Left)
  | e1, e2 =>
    -- For bar items or mixed cases, use time-based overlap
    let item1End := e1.getD ages1.start_age
    let item2End := e2.getD ages2.start_age
    decide (item1End > ages2.start_age) && decide (item2End > ages1.start_age)

/-- C5: characterization of the overlap predicate.  When both items are
milestones (no normalized end age), overlap holds iff the rendered extents
(x-position ± half rendered width) intersect, strictly; otherwise overlap
holds iff `end1 > start2 ∧ end2 > start1` on effective `[start, end-or-start]`
extents, so touching endpoints do not overlap. -/
theorem itemsOverlap_spec (c : TimelineProps) (i1 i2 : TimelineItem) :
    itemsOverlap c i1 i2 = true ↔
      match (getItemAges c i1).end_age, (getItemAges c i2).end_age with
      | none, none =>
        ageToX c (getItemAges c i1).start_age + widthOf c i1.id / 2 >
            ageToX c (getItemAges c i2).start_age - widthOf c i2.id / 2 ∧
          ageToX c (getItemAges c i2).start_age + widthOf c i2.id / 2 >
            ageToX c (getItemAges c i1).start_age - widthOf c i1.id / 2
      | e1, e2 =>
        e1.getD (getItemAges c i1).start_age > (getItemAges c i2).start_age ∧
          e2.getD (getItemAges c i2).start_age > (getItemAges c i1).start_age := by
  unfold itemsOverlap
  rcases h1 : (getItemAges c i1).end_age with _ | e1 <;>
    rcases h2 : (getItemAges c i2).end_age with _ | e2 <;>
      simp [h1, h2]

/-- C7: for every item the normalizer renders as a span (`end_age` present),
the computed width is `max (x(end) - x(start)) oneYearPixelWidth` with
`oneYearPixelWidth = pixelWidth / displayRange`, hence never below one
nominal year's pixel width — for every start/end pair, including
`end_age ≤ start_age`.  (The displayed span is assumed nonzero; at span 0
the JavaScript division yields `Infinity`, treated under C8.) -/
theorem itemWidth_span (c : TimelineProps) (item : TimelineItem) (e : ℚ)
    (he : (getItemAges c item).end_age = some e)
    (_hr : AGE_RANGE c ≠ 0) :
    itemWidth c item =
      max (ageToX c e - ageToX c (getItemAges c item).start_age)
        (c.width / AGE_RANGE c) ∧
    c.width / AGE_RANGE c ≤ itemWidth c item := by
  simp only [itemWidth, he]
  exact ⟨trivial, le_max_right _ _⟩

/-- C7 witness item: an age-mode span 20-25. -/
def itemC7 : TimelineItem :=
  { id := 1, category_id := 1, title := "w", color := .blue,
    start_age := some 20, end_age := some 25 }

/-- C7 witness input: `itemC7` with window `[0, 80]` and width 1200, so the
span is rendered `max (375 - 300) 15 = 75 ≥ 15` wide. -/
def propsC7 : TimelineProps :=
  { items := [itemC7], categories := [], ageRange := 80, autoScale := false }

/-- Witness for C7 at `propsC7`. -/
theorem itemWidth_span_witness :
    itemWidth propsC7 itemC7 =
      max (ageToX propsC7 25 - ageToX propsC7
        (getItemAges propsC7 itemC7).start_age)
        (propsC7.width / AGE_RANGE propsC7) ∧
    propsC7.width / AGE_RANGE propsC7 ≤ itemWidth propsC7 itemC7 := by
  refine itemWidth_span propsC7 itemC7 25 ?_ ?_
  · simp [propsC7, itemC7, getItemAges, deriveItemAges]
  · norm_num [AGE_RANGE, calculateDisplayRange, propsC7]

/-- Division with an explicit zero test, to track where the source divides. -/
def divQ (a b : ℚ) : Option ℚ := if b = 0 then none else some (a / b)

/-- `ageToX` with its division tracked: the source's guard returns 0 before
any division happens when the displayed span is 0. -/
def ageToXChecked (c : TimelineProps) (age : ℚ) : Option ℚ :=
  if AGE_RANGE c = 0 then some 0
  else (divQ (age - START_AGE c) (AGE_RANGE c)).map (· * c.width)

/-- The `itemWidths` loop body with its division tracked: the bar-item branch
computes `TIMELINE_WIDTH / AGE_RANGE` (part_000 line 1811) with no zero
guard. -/
def itemWidthChecked (c : TimelineProps) (item : TimelineItem) : Option ℚ :=
  let ages := getItemAges c item
  match ages.end_age with
  | some effectiveEndAge =>
    (divQ c.width (AGE_RANGE c)).map
      (fun oneYearWidth =>
        max (ageToX c effectiveEndAge - ageToX c ages.start_age) oneYearWidth)
  | none => some (calculatePointItemWidth c item.title)

/-- C8 counterexample item: an age-mode span 1-2. -/
def itemC8 : TimelineItem :=
  { id := 1, category_id := 1, title := "s", color := .blue,
    start_age := some 1, end_age := some 2 }

/-- C8 counterexample input: `age_range = 0` with auto-scale off and one span
item. -/
def propsC8 : TimelineProps :=
  { items := [itemC8], categories := [], ageRange := 0, autoScale := false }

/-- C8 counterexample: with a zero displayed span the span-item width
computation does divide by the zero span (`TIMELINE_WIDTH / AGE_RANGE` with
`AGE_RANGE = 0`, giving `Infinity` in JavaScript), so the claim that the
layout computation "performs no division by zero" is false. -/
theorem itemWidths_divide_by_zero :
    AGE_RANGE propsC8 = 0 ∧
    itemWidthChecked propsC8 itemC8 = none := by
  have hr : AGE_RANGE propsC8 = 0 := by
    norm_num [AGE_RANGE, calculateDisplayRange, propsC8]
  refine ⟨hr, ?_⟩
  have hages : getItemAges propsC8 itemC8 = ⟨1, some 2⟩ := by
    simp [propsC8, itemC8, getItemAges, deriveItemAges]
  simp [itemWidthChecked, hages, divQ, hr]

/-- C8 amended: when the displayed span is 0 the age-to-pixel mapping is
explicitly guarded — `ageToX` returns 0 and performs no division — and
milestone widths involve no division either; but the span-item width
computation does hit a division by the zero span (yielding `Infinity`, not a
crash, in JavaScript). -/
theorem ageToX_zero_span_guard (c : TimelineProps) (age : ℚ) (item : TimelineItem)
    (h : AGE_RANGE c = 0) :
    ageToX c age = 0 ∧
    ageToXChecked c age = some 0 ∧
    (match (getItemAges c item).end_age with
     | none => itemWidthChecked c item = some (calculatePointItemWidth c item.title)
     | some _ => itemWidthChecked c item = none) := by
  refine ⟨by simp [ageToX, h], by simp [ageToXChecked, h], ?_⟩
  rcases he : (getItemAges c item).end_age with _ | e
  · simp [itemWidthChecked, he]
  · simp [itemWidthChecked, he, divQ, h]

/-- Witness for the C8 amended theorem at `propsC8`. -/
theorem ageToX_zero_span_guard_witness :
    ageToX propsC8 5 = 0 ∧
    ageToXChecked propsC8 5 = some 0 ∧
    (match (getItemAges propsC8 itemC8).end_age with
     | none => itemWidthChecked propsC8 itemC8 =
         some (calculatePointItemWidth propsC8 itemC8.title)
     | some _ => itemWidthChecked propsC8 itemC8 = none) :=
  ageToX_zero_span_guard propsC8 5 itemC8
    (by norm_num [AGE_RANGE, calculateDisplayRange, propsC8])

/-- Comparison of optional end ages used by the stacking sort tie-break
(source line 1691-1693: `?? Infinity`): a missing end age counts as `+∞`, so
it is `≤` only another missing end age.  Two milestones compare equal — the
source comparator returns `Infinity - Infinity = NaN` there, which the
ECMAScript `SortCompare` rule coerces to `+0`. -/
def optEndLE (x y : Option ℚ) : Bool :=
  match x, y with
  | _, none => true
  | none, some _ => false
  | some a, some b => decide (a ≤ b)

/-- The total preorder `cmp(a,b) ≤ 0` of the stacking sort comparator
(source lines 1684-1694): by derived `start_age` ascending, ties by end age
with milestones last. -/
def sortLE (c : TimelineProps) (a b : TimelineItem) : Prop :=
  (getItemAges c a).start_age < (getItemAges c b).start_age ∨
    ((getItemAges c a).start_age = (getItemAges c b).start_age ∧
      optEndLE (getItemAges c a).end_age (getItemAges c b).end_age = true)

instance (c : TimelineProps) : DecidableRel (sortLE c) := fun _ _ => by
  unfold sortLE
  infer_instance

/-- Source `[...categoryItems].sort(...)` (lines 1684-1694): ECMAScript sort
is stable and the comparator is a total preorder, so it equals a stable
insertion sort by `sortLE`. -/
def sortItems (c : TimelineProps) (categoryItems : List TimelineItem) :
    List TimelineItem :=
  List.insertionSort (sortLE c) categoryItems

/-- The first-fit scan of source `assignStackPositions` (lines 1696-1715):
place the item in the first stack in which it overlaps nothing (appending it
to that stack) and return the stack's index, or open a new stack at the end. -/
def firstFit (ov : TimelineItem → TimelineItem → Bool) (item : TimelineItem) :
    List (List TimelineItem) → List (List TimelineItem) × ℕ
  | [] => ([[item]], 0)
  | stack :: rest =>
    if stack.all (fun stackItem => ! ov item stackItem) then
      ((stack ++ [item]) :: rest, 0)
    else
      let r := firstFit ov item rest
      (stack :: r.1, r.2 + 1)

/-- One iteration of the `for (const item of sortedItems)` loop: update the
stacks by first fit and append the `stackMap.set(item.id, i)` binding. -/
def allocStep (ov : TimelineItem → TimelineItem → Bool)
    (acc : List (List TimelineItem) × List (ℕ × ℕ)) (item : TimelineItem) :
    List (List TimelineItem) × List (ℕ × ℕ) :=
  let r := firstFit ov item acc.1
  (r.1, acc.2 ++ [(item.id, r.2)])

/-- The loop of source `assignStackPositions` over the already-sorted items,
returning both the internal `stacks` and the `stackMap` binding list. -/
def assignStackPositionsCore (ov : TimelineItem → TimelineItem → Bool)
    (sortedItems : List TimelineItem) :
    List (List TimelineItem) × List (ℕ × ℕ) :=
  sortedItems.foldl (allocStep ov) ([], [])

/-- Source `assignStackPositions` (part_000 lines 1679-1718): the returned
`stackMap`, as the list of `Map.set` bindings in insertion order. -/
def assignStackPositions (c : TimelineProps) (categoryItems : List TimelineItem) :
    List (ℕ × ℕ) :=
  (assignStackPositionsCore (itemsOverlap c) (sortItems c categoryItems)).2

/-- The internal `stacks` array of `assignStackPositions` after the loop. -/
def allocStacks (c : TimelineProps) (categoryItems : List TimelineItem) :
    List (List TimelineItem) :=
  (assignStackPositionsCore (itemsOverlap c) (sortItems c categoryItems)).1

/-- `Map.get` over a list of `Map.set` bindings: the last binding for the key
wins. -/
def lookupLane : List (ℕ × ℕ) → ℕ → Option ℕ
  | [], _ => none
  | p :: rest, id =>
    match lookupLane rest id with
    | some i => some i
    | none => if p.1 = id then some p.2 else none

/-- Source `getCategory` (part_000 lines 1522-1529): the item's joined
category if present, else the `categoryMap` entry for `category_id` (one
`Map.set` per category, last write wins). -/
def getCategory (c : TimelineProps) (item : TimelineItem) : Option Category :=
  match item.category with
  | some cat => some cat
  | none => (c.categories.filter (fun cat => cat.id == item.category_id)).getLast?

/-- The per-category item filter of the stacking loop (part_000 lines
1830-1833). -/
def categoryItems (c : TimelineProps) (category : Category) : List TimelineItem :=
  c.items.filter (fun item =>
    match getCategory c item with
    | some itemCategory => itemCategory.id == category.id
    | none => false)

/-- The distinct keys of a binding list, in first-insertion order (ES `Map`
preserves first-insertion key order across overwrites). -/
def mapKeys (m : List (ℕ × ℕ)) : List ℕ := (m.map Prod.fst).dedup

/-- `Array.from(positions.values())`: one (final) value per distinct key. -/
def mapValues (m : List (ℕ × ℕ)) : List ℕ := (mapKeys m).filterMap (lookupLane m)

/-- Source `categoryMaxStacks` entry for one category (part_000 lines
1834-1839): `Math.max(...Array.from(positions.values()), 0) + 1`. -/
def categoryMaxStack (c : TimelineProps) (category : Category) : ℕ :=
  (mapValues (assignStackPositions c (categoryItems c category))).foldl max 0 + 1

/-- The stack at index `i`, with out-of-range indices reading as the empty stack. -/
def laneGet (stks : List (List TimelineItem)) (i : ℕ) : List TimelineItem :=
  stks.getD i []

theorem firstFit_lane_le (ov : TimelineItem → TimelineItem → Bool)
    (item : TimelineItem) :
    ∀ stks, (firstFit ov item stks).2 ≤ stks.length := by
  intro stks
  induction stks with
  | nil => simp [firstFit]
  | cons s rest ih =>
    by_cases h : s.all (fun x => ! ov item x) = true
    · simp [firstFit, h]
    · simp only [firstFit, h, if_false]
      exact Nat.succ_le_succ ih

theorem firstFit_length (ov : TimelineItem → TimelineItem → Bool)
    (item : TimelineItem) :
    ∀ stks, (firstFit ov item stks).1.length =
      max stks.length ((firstFit ov item stks).2 + 1) := by
  intro stks
  induction stks with
  | nil => simp [firstFit]
  | cons s rest ih =>
    by_cases h : s.all (fun x => ! ov item x) = true
    · simp [firstFit, h]
    · simp only [firstFit, h, Bool.false_eq_true, if_false, List.length_cons]
      omega

theorem firstFit_laneGet_self (ov : TimelineItem → TimelineItem → Bool)
    (item : TimelineItem) :
    ∀ stks, laneGet (firstFit ov item stks).1 (firstFit ov item stks).2 =
      laneGet stks (firstFit ov item stks).2 ++ [item] := by
  intro stks
  induction stks with
  | nil => simp [firstFit, laneGet]
  | cons s rest ih =>
    by_cases h : s.all (fun x => ! ov item x) = true
    · simp [firstFit, h, laneGet]
    · simpa only [firstFit, h, if_false, laneGet, List.getD_cons_succ] using ih

theorem firstFit_laneGet_other (ov : TimelineItem → TimelineItem → Bool)
    (item : TimelineItem) :
    ∀ stks j, j ≠ (firstFit ov item stks).2 →
      laneGet (firstFit ov item stks).1 j = laneGet stks j := by
  intro stks
  induction stks with
  | nil =>
    intro j hj
    simp only [firstFit] at hj ⊢
    cases j with
    | zero => exact absurd rfl hj
    | succ k => simp [laneGet]
  | cons s rest ih =>
    intro j hj
    by_cases h : s.all (fun x => ! ov item x) = true
    · simp only [firstFit, h, if_true] at hj ⊢
      cases j with
      | zero => exact absurd rfl hj
      | succ k => simp [laneGet]
    · simp only [firstFit, h, if_false] at hj ⊢
      cases j with
      | zero => simp [laneGet]
      | succ k =>
        have hk : k ≠ (firstFit ov item rest).2 := by
          intro hkk
          exact hj (by simp [hkk])
        simpa only [laneGet, List.getD_cons_succ] using ih k hk

theorem firstFit_no_overlap (ov : TimelineItem → TimelineItem → Bool)
    (item : TimelineItem) :
    ∀ stks, ∀ x ∈ laneGet stks (firstFit ov item stks).2, ov item x = false := by
  intro stks
  induction stks with
  | nil => simp [firstFit, laneGet]
  | cons s rest ih =>
    by_cases h : s.all (fun x => ! ov item x) = true
    · simp only [firstFit, h, if_true]
      intro x hx
      have := List.all_eq_true.mp h x hx
      simpa using this
    · simp only [firstFit, h, if_false]
      intro x hx
      exact ih x (by simpa [laneGet] using hx)

/-- Loop invariant of the stacking allocator after processing `processed`:
the binding keys follow the processed items, stacks are pairwise
non-overlapping, nonempty, drawn from the processed items, and the binding
list and the stacks index each other. -/
structure AllocInv (ov : TimelineItem → TimelineItem → Bool)
    (processed : List TimelineItem)
    (acc : List (List TimelineItem) × List (ℕ × ℕ)) : Prop where
  keys : acc.2.map Prod.fst = processed.map TimelineItem.id
  good : ∀ i, ∀ a ∈ laneGet acc.1 i, ∀ b ∈ laneGet acc.1 i, a ≠ b → ov a b = false
  nonempty : ∀ i < acc.1.length, laneGet acc.1 i ≠ []
  mem_sub : ∀ i, ∀ a ∈ laneGet acc.1 i, a ∈ processed
  lane_lt : ∀ p ∈ acc.2, p.2 < acc.1.length
  entry_stack : ∀ p ∈ acc.2, ∃ a ∈ laneGet acc.1 p.2, a.id = p.1
  stack_entry : ∀ i, ∀ a ∈ laneGet acc.1 i, (a.id, i) ∈ acc.2

theorem allocInv_init (ov : TimelineItem → TimelineItem → Bool) :
    AllocInv ov [] ([], []) := by
  refine ⟨rfl, ?_, ?_, ?_, ?_, ?_, ?_⟩ <;> simp [laneGet]

theorem allocInv_step (ov : TimelineItem → TimelineItem → Bool)
    (hsym : ∀ a b, ov a b = ov b a)
    (processed : List TimelineItem)
    (acc : List (List TimelineItem) × List (ℕ × ℕ))
    (item : TimelineItem)
    (h : AllocInv ov processed acc) :
    AllocInv ov (processed ++ [item]) (allocStep ov acc item) := by
  set i0 := (firstFit ov item acc.1).2 with hi0
  have hle : i0 ≤ acc.1.length := firstFit_lane_le ov item acc.1
  have hlen : (firstFit ov item acc.1).1.length = max acc.1.length (i0 + 1) :=
    firstFit_length ov item acc.1
  have hself : laneGet (firstFit ov item acc.1).1 i0 = laneGet acc.1 i0 ++ [item] :=
    firstFit_laneGet_self ov item acc.1
  have hother : ∀ j, j ≠ i0 →
      laneGet (firstFit ov item acc.1).1 j = laneGet acc.1 j :=
    fun j hj => firstFit_laneGet_other ov item acc.1 j hj
  have hno : ∀ x ∈ laneGet acc.1 i0, ov item x = false :=
    fun x hx => firstFit_no_overlap ov item acc.1 x hx
  constructor
  · -- keys
    simp [allocStep, h.keys]
  · -- good
    intro j a ha b hb hab
    by_cases hj : j = i0
    · subst hj
      rw [show (allocStep ov acc item).1 = (firstFit ov item acc.1).1 from rfl, hself]
        at ha hb
      rcases List.mem_append.mp ha with ha' | ha' <;>
        rcases List.mem_append.mp hb with hb' | hb'
      · exact h.good i0 a ha' b hb' hab
      · have hb'' : b = item := by simpa using hb'
        subst hb''
        rw [hsym]
        exact hno a ha'
      · have ha'' : a = item := by simpa using ha'
        subst ha''
        exact hno b hb'
      · have ha'' : a = item := by simpa using ha'
        have hb'' : b = item := by simpa using hb'
        subst ha''
        subst hb''
        exact absurd rfl hab
    · rw [show (allocStep ov acc item).1 = (firstFit ov item acc.1).1 from rfl,
        hother j hj] at ha hb
      exact h.good j a ha b hb hab
  · -- nonempty
    intro j hjlt
    rw [show (allocStep ov acc item).1 = (firstFit ov item acc.1).1 from rfl] at hjlt ⊢
    by_cases hj : j = i0
    · subst hj
      rw [hself]
      simp
    · rw [hother j hj]
      have hjlt' : j < acc.1.length := by
        rw [hlen] at hjlt
        omega
      exact h.nonempty j hjlt'
  · -- mem_sub
    intro j a ha
    rw [show (allocStep ov acc item).1 = (firstFit ov item acc.1).1 from rfl] at ha
    by_cases hj : j = i0
    · subst hj
      rw [hself] at ha
      rcases List.mem_append.mp ha with ha' | ha'
      · exact List.mem_append_left _ (h.mem_sub _ a ha')
      · have : a = item := by simpa using ha'
        subst this
        simp
    · rw [hother j hj] at ha
      exact List.mem_append_left _ (h.mem_sub j a ha)
  · -- lane_lt
    intro p hp
    rw [show (allocStep ov acc item).1 = (firstFit ov item acc.1).1 from rfl, hlen]
    rcases List.mem_append.mp hp with hp' | hp'
    · have := h.lane_lt p hp'
      omega
    · have : p = (item.id, i0) := by simpa [allocStep] using hp'
      subst this
      omega
  · -- entry_stack
    intro p hp
    rw [show (allocStep ov acc item).1 = (firstFit ov item acc.1).1 from rfl]
    rcases List.mem_append.mp hp with hp' | hp'
    · obtain ⟨a, ha, haid⟩ := h.entry_stack p hp'
      by_cases hj : p.2 = i0
      · refine ⟨a, ?_, haid⟩
        rw [hj, hself]
        exact List.mem_append_left _ (hj ▸ ha)
      · refine ⟨a, ?_, haid⟩
        rw [hother p.2 hj]
        exact ha
    · have : p = (item.id, i0) := by simpa [allocStep] using hp'
      subst this
      refine ⟨item, ?_, rfl⟩
      rw [hself]
      simp
  · -- stack_entry
    intro j a ha
    rw [show (allocStep ov acc item).1 = (firstFit ov item acc.1).1 from rfl] at ha
    by_cases hj : j = i0
    · subst hj
      rw [hself] at ha
      rcases List.mem_append.mp ha with ha' | ha'
      · exact List.mem_append_left _ (h.stack_entry _ a ha')
      · have : a = item := by simpa using ha'
        subst this
        simp [allocStep]
    · rw [hother j hj] at ha
      exact List.mem_append_left _ (h.stack_entry j a ha)

theorem allocInv_foldl (ov : TimelineItem → TimelineItem → Bool)
    (hsym : ∀ a b, ov a b = ov b a) :
    ∀ (todo processed : List TimelineItem)
      (acc : List (List TimelineItem) × List (ℕ × ℕ)),
      AllocInv ov processed acc →
      AllocInv ov (processed ++ todo) (todo.foldl (allocStep ov) acc) := by
  intro todo
  induction todo with
  | nil =>
    intro processed acc h
    simpa using h
  | cons x xs ih =>
    intro processed acc h
    have hstep := allocInv_step ov hsym processed acc x h
    have := ih (processed ++ [x]) (allocStep ov acc x) hstep
    simpa [List.append_assoc] using this

theorem allocInv_core (ov : TimelineItem → TimelineItem → Bool)
    (hsym : ∀ a b, ov a b = ov b a) (l : List TimelineItem) :
    AllocInv ov l (assignStackPositionsCore ov l) := by
  have := allocInv_foldl ov hsym l [] ([], []) (allocInv_init ov)
  simpa [assignStackPositionsCore] using this

/-- The overlap predicate is symmetric: both its branches are conjunctions of
the same strict comparisons with the operand roles swapped. -/
theorem itemsOverlap_symm (c : TimelineProps) (a b : TimelineItem) :
    itemsOverlap c a b = itemsOverlap c b a := by
  unfold itemsOverlap
  rcases h1 : (getItemAges c a).end_age with _ | e1 <;>
    rcases h2 : (getItemAges c b).end_age with _ | e2 <;>
      simp [h1, h2, Bool.and_comm]

theorem lookupLane_mem :
    ∀ (m : List (ℕ × ℕ)) (id i : ℕ), lookupLane m id = some i → (id, i) ∈ m := by
  intro m
  induction m with
  | nil => intro id i h; simp [lookupLane] at h
  | cons p rest ih =>
    intro id i h
    rw [lookupLane] at h
    rcases hrec : lookupLane rest id with _ | j
    · rw [hrec] at h
      dsimp only at h
      split_ifs at h with hid
      · have hi : p.2 = i := by simpa using h
        have hp : (id, i) = p := by
          rw [← hid, ← hi]
        exact List.mem_cons.mpr (Or.inl hp)
    · rw [hrec] at h
      dsimp only at h
      have hj : j = i := by simpa using h
      subst hj
      exact List.mem_cons_of_mem _ (ih id j hrec)

theorem lookupLane_none :
    ∀ (m : List (ℕ × ℕ)) (id : ℕ), id ∉ m.map Prod.fst → lookupLane m id = none := by
  intro m
  induction m with
  | nil => intro id _; rfl
  | cons p rest ih =>
    intro id hid
    simp only [List.map_cons, List.mem_cons, not_or] at hid
    simp only [lookupLane, ih id hid.2]
    rw [if_neg (fun h => hid.1 h.symm)]

theorem lookupLane_isSome :
    ∀ (m : List (ℕ × ℕ)) (id : ℕ), id ∈ m.map Prod.fst →
      ∃ i, lookupLane m id = some i := by
  intro m
  induction m with
  | nil => intro id h; simp at h
  | cons p rest ih =>
    intro id hid
    rw [lookupLane]
    rcases hrec : lookupLane rest id with _ | j
    · simp only [List.map_cons, List.mem_cons] at hid
      rcases hid with hid | hid
      · refine ⟨p.2, ?_⟩
        dsimp only
        rw [if_pos hid.symm]
      · obtain ⟨i, hi⟩ := ih id hid
        rw [hi] at hrec
        exact absurd hrec (by simp)
    · exact ⟨j, rfl⟩

theorem lookupLane_of_nodup :
    ∀ (m : List (ℕ × ℕ)), (m.map Prod.fst).Nodup →
      ∀ (id i : ℕ), (id, i) ∈ m → lookupLane m id = some i := by
  intro m
  induction m with
  | nil => intro _ id i h; simp at h
  | cons p rest ih =>
    intro hnd id i hmem
    simp only [List.map_cons, List.nodup_cons] at hnd
    rcases List.mem_cons.mp hmem with hmem | hmem
    · subst hmem
      have hnone : lookupLane rest id = none :=
        lookupLane_none rest id (by simpa using hnd.1)
      simp [lookupLane, hnone]
    · have := ih hnd.2 id i hmem
      simp [lookupLane, this]

theorem nodup_ids_inj (l : List TimelineItem)
    (hnd : (l.map TimelineItem.id).Nodup) :
    ∀ a ∈ l, ∀ b ∈ l, a.id = b.id → a = b := by
  induction l with
  | nil => intro a ha; simp at ha
  | cons x xs ih =>
    intro a ha b hb hab
    simp only [List.map_cons, List.nodup_cons] at hnd
    rcases List.mem_cons.mp ha with ha' | ha' <;> rcases List.mem_cons.mp hb with hb' | hb'
    · rw [ha', hb']
    · subst ha'
      exact absurd (hab ▸ List.mem_map_of_mem TimelineItem.id hb') hnd.1
    · subst hb'
      exact absurd (hab ▸ List.mem_map_of_mem TimelineItem.id ha') hnd.1
    · exact ih hnd.2 a ha' b hb' hab

/-- C1: the Stacking Allocator's non-overlap guarantee.  For any item list
with distinct ids (the data model's id-uniqueness invariant), any two
distinct items that `assignStackPositions` maps to the same lane do not
satisfy the overlap predicate. -/
theorem assignStackPositions_no_overlap (c : TimelineProps) (l : List TimelineItem)
    (hids : (l.map TimelineItem.id).Nodup)
    (a b : TimelineItem) (ha : a ∈ l) (hb : b ∈ l) (hab : a ≠ b) (i : ℕ)
    (hia : lookupLane (assignStackPositions c l) a.id = some i)
    (hib : lookupLane (assignStackPositions c l) b.id = some i) :
    itemsOverlap c a b = false := by
  have hperm : (sortItems c l).Perm l := List.perm_insertionSort _ l
  have hinv := allocInv_core (itemsOverlap c) (itemsOverlap_symm c) (sortItems c l)
  have hma : ((a.id, i) : ℕ × ℕ) ∈
      (assignStackPositionsCore (itemsOverlap c) (sortItems c l)).2 :=
    lookupLane_mem _ _ _ hia
  have hmb : ((b.id, i) : ℕ × ℕ) ∈
      (assignStackPositionsCore (itemsOverlap c) (sortItems c l)).2 :=
    lookupLane_mem _ _ _ hib
  obtain ⟨x, hx, hxid⟩ := hinv.entry_stack _ hma
  obtain ⟨y, hy, hyid⟩ := hinv.entry_stack _ hmb
  have hxl : x ∈ l := hperm.mem_iff.mp (hinv.mem_sub _ x hx)
  have hyl : y ∈ l := hperm.mem_iff.mp (hinv.mem_sub _ y hy)
  have hxa : x = a := nodup_ids_inj l hids x hxl a ha hxid
  have hyb : y = b := nodup_ids_inj l hids y hyl b hb hyid
  subst hxa
  subst hyb
  exact hinv.good i x hx y hy hab

theorem foldl_max_le (B : ℕ) :
    ∀ (l : List ℕ) (a : ℕ), a ≤ B → (∀ v ∈ l, v ≤ B) → l.foldl max a ≤ B := by
  intro l
  induction l with
  | nil => intro a ha _; simpa using ha
  | cons x xs ih =>
    intro a ha hv
    simp only [List.foldl_cons]
    refine ih (max a x) ?_ ?_
    · exact max_le ha (hv x (List.mem_cons_self _ _))
    · exact fun v hvv => hv v (List.mem_cons_of_mem _ hvv)

theorem le_foldl_max_init : ∀ (l : List ℕ) (a : ℕ), a ≤ l.foldl max a := by
  intro l
  induction l with
  | nil => intro a; simp
  | cons x xs ih =>
    intro a
    simp only [List.foldl_cons]
    exact le_trans (le_max_left a x) (ih (max a x))

theorem le_foldl_max_of_mem :
    ∀ (l : List ℕ) (a v : ℕ), v ∈ l → v ≤ l.foldl max a := by
  intro l
  induction l with
  | nil => intro a v hv; simp at hv
  | cons x xs ih =>
    intro a v hv
    simp only [List.foldl_cons]
    rcases List.mem_cons.mp hv with hv' | hv'
    · subst hv'
      exact le_trans (le_max_right a v) (le_foldl_max_init xs (max a v))
    · exact ih (max a x) v hv'

/-- C10: the Stacking Allocator assigns exactly one lane to every item of a
category (ids assumed distinct per the data model), the lanes used are
exactly `{0, …, K-1}` for `K` the number of stacks (every lane nonempty, no
gaps), and the category's recorded lane count `categoryMaxStack` — the
source's `Math.max(...positions.values(), 0) + 1` — equals `K`, or 1 for an
empty category. -/
theorem assignStackPositions_lanes (c : TimelineProps) (cat : Category)
    (hids : ((categoryItems c cat).map TimelineItem.id).Nodup) :
    (∀ a ∈ categoryItems c cat, ∃ i,
        lookupLane (assignStackPositions c (categoryItems c cat)) a.id = some i ∧
        i < (allocStacks c (categoryItems c cat)).length) ∧
    (∀ i, i < (allocStacks c (categoryItems c cat)).length ↔
        ∃ a ∈ categoryItems c cat,
          lookupLane (assignStackPositions c (categoryItems c cat)) a.id = some i) ∧
    categoryMaxStack c cat = max (allocStacks c (categoryItems c cat)).length 1 := by
  set l := categoryItems c cat with hl
  have hperm : (sortItems c l).Perm l := List.perm_insertionSort _ l
  have hinv := allocInv_core (itemsOverlap c) (itemsOverlap_symm c) (sortItems c l)
  have hkeys : (assignStackPositions c l).map Prod.fst =
      (sortItems c l).map TimelineItem.id := hinv.keys
  have hkeysnd : ((assignStackPositions c l).map Prod.fst).Nodup := by
    rw [hkeys]
    exact ((hperm.map TimelineItem.id).nodup_iff).mpr hids
  have hmem_l : ∀ a ∈ l, ∃ i,
      lookupLane (assignStackPositions c l) a.id = some i ∧
      i < (allocStacks c l).length := by
    intro a ha
    have hidmem : a.id ∈ (assignStackPositions c l).map Prod.fst := by
      rw [hkeys]
      exact List.mem_map_of_mem _ (hperm.mem_iff.mpr ha)
    obtain ⟨i, hi⟩ := lookupLane_isSome _ _ hidmem
    exact ⟨i, hi, hinv.lane_lt _ (lookupLane_mem _ _ _ hi)⟩
  have hlane_iff : ∀ i, i < (allocStacks c l).length ↔
      ∃ a ∈ l, lookupLane (assignStackPositions c l) a.id = some i := by
    intro i
    constructor
    · intro hlt
      have hne := hinv.nonempty i hlt
      obtain ⟨x, hx⟩ := List.exists_mem_of_ne_nil _ hne
      have hentry := hinv.stack_entry i x hx
      refine ⟨x, hperm.mem_iff.mp (hinv.mem_sub i x hx), ?_⟩
      exact lookupLane_of_nodup _ hkeysnd _ _ hentry
    · rintro ⟨a, _, ha⟩
      exact hinv.lane_lt _ (lookupLane_mem _ _ _ ha)
  refine ⟨hmem_l, hlane_iff, ?_⟩
  have hdef : categoryMaxStack c cat =
      (mapValues (assignStackPositions c l)).foldl max 0 + 1 := rfl
  by_cases hK : (allocStacks c l).length = 0
  · -- no stacks: the binding list is empty and the recorded count is 1
    have hm : assignStackPositions c l = [] := by
      cases hm : assignStackPositions c l with
      | nil => rfl
      | cons p m' =>
        exfalso
        have hp : (p : ℕ × ℕ) ∈
            (assignStackPositionsCore (itemsOverlap c) (sortItems c l)).2 := by
          show p ∈ assignStackPositions c l
          rw [hm]
          exact List.mem_cons_self p m'
        have hlt := hinv.lane_lt p hp
        have hlen : (assignStackPositionsCore (itemsOverlap c) (sortItems c l)).1.length
            = 0 := hK
        omega
    rw [hdef, hm, hK]
    rfl
  · -- at least one stack: the fold over the map values reaches exactly K-1
    have hKpos : 1 ≤ (allocStacks c l).length := Nat.pos_of_ne_zero hK
    have hub : ∀ v ∈ mapValues (assignStackPositions c l),
        v ≤ (allocStacks c l).length - 1 := by
      intro v hv
      obtain ⟨id, _, hlk⟩ := List.mem_filterMap.mp hv
      have := hinv.lane_lt _ (lookupLane_mem _ _ _ hlk)
      have hlen : (assignStackPositionsCore (itemsOverlap c) (sortItems c l)).1.length
          = (allocStacks c l).length := rfl
      omega
    have hlb : (allocStacks c l).length - 1 ∈ mapValues (assignStackPositions c l) := by
      obtain ⟨a, _, ha⟩ := (hlane_iff ((allocStacks c l).length - 1)).mp (by omega)
      refine List.mem_filterMap.mpr ⟨a.id, ?_, ha⟩
      exact List.mem_dedup.mpr (List.mem_map_of_mem _ (lookupLane_mem _ _ _ ha))
    have heq : (mapValues (assignStackPositions c l)).foldl max 0 =
        (allocStacks c l).length - 1 := by
      refine le_antisymm ?_ ?_
      · exact foldl_max_le _ _ 0 (by omega) hub
      · exact le_foldl_max_of_mem _ 0 _ hlb
    rw [hdef, heq, max_eq_left hKpos]
    omega

/-- Witness category: "Projects", top section, order 0. -/
def catW : Category :=
  { id := 1, name := "projects", label := "Projects", sec := .top,
    display_order := 0, color := .blue }

/-- Witness item: age-mode span 0-5 in category 1. -/
def itemW1 : TimelineItem :=
  { id := 1, category_id := 1, title := "A", color := .blue,
    start_age := some 0, end_age := some 5 }

/-- Witness item: age-mode span 10-15 in category 1. -/
def itemW2 : TimelineItem :=
  { id := 2, category_id := 1, title := "B", color := .blue,
    start_age := some 10, end_age := some 15 }

/-- Witness props: the two disjoint spans in one category, fixed window. -/
def propsW : TimelineProps :=
  { items := [itemW1, itemW2], categories := [catW], ageRange := 80,
    autoScale := false }

theorem propsW_ages1 : getItemAges propsW itemW1 = ⟨0, some 5⟩ := by
  simp [getItemAges, propsW, itemW1, itemW2, deriveItemAges]

theorem propsW_ages2 : getItemAges propsW itemW2 = ⟨10, some 15⟩ := by
  simp [getItemAges, propsW, itemW1, itemW2, deriveItemAges]

theorem propsW_sorted : sortItems propsW [itemW1, itemW2] = [itemW1, itemW2] := by
  have hle : sortLE propsW itemW1 itemW2 := by
    rw [sortLE, propsW_ages1, propsW_ages2]
    norm_num
  simp only [sortItems, List.insertionSort, List.orderedInsert]
  rw [if_pos hle]

theorem propsW_no_ov : itemsOverlap propsW itemW2 itemW1 = false := by
  rw [itemsOverlap]
  rw [propsW_ages1, propsW_ages2]
  norm_num

theorem propsW_alloc :
    assignStackPositions propsW [itemW1, itemW2] = [(1, 0), (2, 0)] := by
  rw [assignStackPositions, propsW_sorted, assignStackPositionsCore]
  simp only [List.foldl_cons, List.foldl_nil, allocStep]
  simp only [firstFit, List.all_cons, List.all_nil, propsW_no_ov, Bool.not_false,
    Bool.and_true, if_true, ite_true]
  simp [itemW1, itemW2]

/-- Witness for C1 at `propsW`: both spans land in lane 0 and indeed do not
overlap. -/
theorem assignStackPositions_no_overlap_witness :
    itemsOverlap propsW itemW1 itemW2 = false := by
  refine assignStackPositions_no_overlap propsW [itemW1, itemW2] ?_ itemW1 itemW2
    (by simp) (by simp) ?_ 0 ?_ ?_
  · simp [itemW1, itemW2]
  · simp [itemW1, itemW2]
  · rw [propsW_alloc]
    simp [itemW1, lookupLane]
  · rw [propsW_alloc]
    simp [itemW2, lookupLane]

theorem propsW_catItems : categoryItems propsW catW = [itemW1, itemW2] := by
  simp [categoryItems, getCategory, propsW, catW, itemW1, itemW2]

/-- Witness for C10 at `propsW`/`catW`: both items are mapped to a lane below
the stack count, every stack index is a used lane, and the recorded lane
count matches. -/
theorem assignStackPositions_lanes_witness :
    (∀ a ∈ categoryItems propsW catW, ∃ i,
        lookupLane (assignStackPositions propsW (categoryItems propsW catW)) a.id =
          some i ∧
        i < (allocStacks propsW (categoryItems propsW catW)).length) ∧
    (∀ i, i < (allocStacks propsW (categoryItems propsW catW)).length ↔
        ∃ a ∈ categoryItems propsW catW,
          lookupLane (assignStackPositions propsW (categoryItems propsW catW)) a.id =
            some i) ∧
    categoryMaxStack propsW catW =
      max (allocStacks propsW (categoryItems propsW catW)).length 1 := by
  refine assignStackPositions_lanes propsW catW ?_
  rw [propsW_catItems]
  simp [itemW1, itemW2]

/-- The category-manager form state (part_001 lines 22-28). -/
structure FormData where
  name : String
  label : String
  sec : CatSection
  display_order : ℕ
  color : TLColor
deriving DecidableEq, Repr

/-- The `{ ...cat, ...formData }` spread of `handleSave` (part_001 line 120). -/
def applyForm (cat : Category) (fd : FormData) : Category :=
  { cat with
    name := fd.name
    label := fd.label
    sec := fd.sec
    display_order := fd.display_order
    color := fd.color }

/-- The `(display_order, id)` comparator used by both reorder paths
(part_001 lines 153-158 and 198-203), as a total order. -/
def catLE (a b : Category) : Prop :=
  a.display_order < b.display_order ∨
    (a.display_order = b.display_order ∧ a.id ≤ b.id)

instance : DecidableRel catLE := fun _ _ => by
  unfold catLE
  infer_instance

/-- `sort` by the comparator above (stable; the comparator is total so
stability is irrelevant here). -/
def sortByOrderThenId (l : List Category) : List Category :=
  List.insertionSort catLE l

/-- `arr.splice(pos, 0, x)` (part_001 line 162): insert at `pos`, clamped to
the array length. -/
def spliceInsert (l : List Category) (pos : ℕ) (x : Category) : List Category :=
  l.take pos ++ x :: l.drop pos

/-- Source `validateForm` (part_001 lines 69-105).  `label.trim()` /
`name.trim()` truthiness is "has a non-whitespace character"; the name format
regex `^[a-z0-9_]+$` is checked per character on a nonempty name. -/
def validateForm (categories : List Category) (editingCategory : Option ℕ)
    (fd : FormData) : Bool :=
  let labelOk := fd.label.data.any (fun ch => ! ch.isWhitespace)
  let nameNonempty := fd.name.data.any (fun ch => ! ch.isWhitespace)
  let nameFormat := (! fd.name.data.isEmpty) &&
    fd.name.data.all (fun ch =>
      ('a' ≤ ch && ch ≤ 'z') || ('0' ≤ ch && ch ≤ '9') || ch == '_')
  let nameUnique := ! categories.any (fun cat =>
    cat.name == fd.name &&
      (match editingCategory with
       | none => true
       | some eid => ! (cat.id == eid)))
  let maxDisplayOrder := (categories.filter (fun cat => cat.sec == fd.sec)).length
  let orderOk := decide (fd.display_order ≤ maxDisplayOrder)
  labelOk && nameNonempty && nameFormat && nameUnique && orderOk

/-- Source `handleSave` (part_001 lines 107-182), as a pure function from the
category list, the edited category's id (`none` = create), the form data and
`nextCategoryId` to the updated category list.  A failed validation returns
the list unchanged.  The source's reassignment loop writes `display_order :=
index` through `updatedCategories.findIndex` by id; with unique ids that is
the per-id update written here. -/
def handleSave (categories : List Category) (editingCategory : Option ℕ)
    (fd : FormData) (nextCategoryId : ℕ) : List Category :=
  if validateForm categories editingCategory fd = false then categories
  else
    let newCategory : Category :=
      { id := nextCategoryId, name := fd.name, label := fd.label, sec := fd.sec,
        display_order := fd.display_order, color := fd.color }
    let updatedCategories : List Category :=
      match editingCategory with
      | some eid =>
        -- Update existing category
        categories.map (fun cat => if cat.id = eid then applyForm cat fd else cat)
      | none =>
        -- Create new category
        categories ++ [newCategory]
    -- Reorder display orders to be unique and sequential
    let sectionCategories := updatedCategories.filter (fun cat => cat.sec == fd.sec)
    let maxDisplayOrder := (categories.filter (fun cat => cat.sec == fd.sec)).length
    let hasDuplicates := sectionCategories.length ≠
      ((sectionCategories.map Category.display_order).dedup).length
    let isInsertingInMiddle := fd.display_order < maxDisplayOrder
    if isInsertingInMiddle ∨ hasDuplicates then
      let targetCategory : Option Category :=
        match editingCategory with
        | some eid => updatedCategories.find? (fun cat => cat.id == eid)
        | none => some newCategory
      match targetCategory with
      | none => updatedCategories
      | some target =>
        let otherCategories := sortByOrderThenId
          (sectionCategories.filter (fun cat => ! (cat.id == target.id)))
        let inserted := spliceInsert otherCategories fd.display_order target
        -- Reassign sequential display orders (0, 1, 2, 3, ...)
        updatedCategories.map (fun (cat : Category) =>
          match inserted.findIdx? (fun (x : Category) => x.id == cat.id) with
          | some idx => { cat with display_order := idx }
          | none => cat)
    else updatedCategories

/-- Source `handleDelete` (part_001 lines 184-215), with the confirm dialog
accepted: remove the category and re-densify the deleted category's section
by `(display_order, id)` order. -/
def handleDelete (categories : List Category) (id : ℕ) : List Category :=
  match categories.find? (fun cat => cat.id == id) with
  | none => categories
  | some categoryToDelete =>
    let updatedCategories := categories.filter (fun cat => ! (cat.id == id))
    let sectionCategories := sortByOrderThenId
      (updatedCategories.filter (fun cat => cat.sec == categoryToDelete.sec))
    -- Reassign sequential display orders (0, 1, 2, 3, ...)
    updatedCategories.map (fun (cat : Category) =>
      match sectionCategories.findIdx? (fun (x : Category) => x.id == cat.id) with
      | some idx => { cat with display_order := idx }
      | none => cat)

/-- The `display_order` values of one section, in list order. -/
def sectionOrders (categories : List Category) (s : CatSection) : List ℕ :=
  (categories.filter (fun cat => cat.sec == s)).map Category.display_order

def sortNat (l : List ℕ) : List ℕ := List.insertionSort (· ≤ ·) l

/-- A section's `display_order` multiset is exactly `{0, …, count-1}`. -/
def sectionDense (categories : List Category) (s : CatSection) : Bool :=
  sortNat (sectionOrders categories s) ==
    List.range (sectionOrders categories s).length

/-- C6 failing input: three dense top categories. -/
def catsC6 : List Category :=
  [{ id := 1, name := "a", label := "A", sec := .top, display_order := 0,
     color := .blue },
   { id := 2, name := "b", label := "B", sec := .top, display_order := 1,
     color := .blue },
   { id := 3, name := "c", label := "C", sec := .top, display_order := 2,
     color := .blue }]

/-- C6 failing edit: re-save category 1 with `display_order = 3` (the
validation maximum, offered by the form as "add at the end"). -/
def fdC6 : FormData :=
  { name := "a", label := "A", sec := .top, display_order := 3, color := .blue }

/-- C6 is a code bug: from a dense state `{0,1,2}`, editing category 1 to
`display_order = 3` passes validation, triggers no reorder
(`isInsertingInMiddle` is false since `3 ≮ 3`, and `{3,1,2}` has no
duplicates), and leaves the top section with orders `{1,2,3}` — not the
dense `{0,1,2}` the spec's invariant requires. -/
theorem handleSave_breaks_density :
    sectionDense catsC6 .top = true ∧
    validateForm catsC6 (some 1) fdC6 = true ∧
    sectionOrders (handleSave catsC6 (some 1) fdC6 4) .top = [3, 1, 2] ∧
    sectionDense (handleSave catsC6 (some 1) fdC6 4) .top = false := by
  decide

end LifeMapApp
